import Mathlib

/-!
Verification of the multi-exchange market-data ingestion pipeline
(Forestrat duckdb-notebooks).

The repository ships the SQL schema scripts, the operator shell wrappers and
the documentation of the ingestion engine; the Python engine itself
(`load_january_simple.py`, `dashboard_app.py`) is not part of the source
tree.  Definitions below therefore come in two groups:

* direct embeddings of the SQL that is present (`get_s3_path`, the bronze
  table DDL, the Supabase precision migration), and
* a state-transition model of the progress ledger, ingestion worker, job
  runner, shutdown token and remote dual-writer, modelled from the spec
  where the Python source is absent.  Those definitions carry a
  `Modelled from the spec:` doc comment.

Machine integers are modelled as `Nat`/`Int`/`ℚ`; dates are day numbers
(`Nat`), with the epoch chosen so that day numbers divisible by 7 fall on a
Sunday.
-/

namespace Ingestion

/-! ### Association lists

The progress ledger, the bronze row counts and the statistics tables are
keyed stores; we model each as an association list with unique keys and
the two primitives the model needs: lookup and upsert. -/

def lookupA {α β : Type} [DecidableEq α] (k : α) : List (α × β) → Option β
  | [] => none
  | (a, b) :: t => if a = k then some b else lookupA k t

def upsertA {α β : Type} [DecidableEq α] (k : α) (v : β) : List (α × β) → List (α × β)
  | [] => [(k, v)]
  | (a, b) :: t => if a = k then (k, v) :: t else (a, b) :: upsertA k v t

theorem lookupA_upsertA_self {α β : Type} [DecidableEq α] (k : α) (v : β)
    (l : List (α × β)) : lookupA k (upsertA k v l) = some v := by
  induction l with
  | nil => simp [lookupA, upsertA]
  | cons hd t ih =>
    obtain ⟨a, b⟩ := hd
    by_cases h : a = k
    · simp [lookupA, upsertA, h]
    · simp [lookupA, upsertA, h, ih]

theorem lookupA_upsertA_ne {α β : Type} [DecidableEq α] {k k' : α} (v : β)
    (l : List (α × β)) (h : k ≠ k') :
    lookupA k' (upsertA k v l) = lookupA k' l := by
  induction l with
  | nil => simp [lookupA, upsertA, h]
  | cons hd t ih =>
    obtain ⟨a, b⟩ := hd
    by_cases ha : a = k
    · subst ha
      simp [lookupA, upsertA, h]
    · simp only [upsertA, if_neg ha, lookupA]
      by_cases hk : a = k'
      · simp [hk]
      · simp [hk, ih]

/-! ### Data model -/

/-- Lifecycle states of a Progress Record. -/
inductive Status
  | started
  | completed
  | failed
  | skipped
deriving DecidableEq, Repr

/-- Identity `(exchange, data_date)` of a Progress Record; dates are day
numbers. -/
structure Key where
  exchange : String
  dataDate : Nat
deriving DecidableEq, Repr

/-- One row of `bronze.load_progress`, modelled from the spec (section 3):
`file_path`, `file_size_bytes`, `status`, `records_loaded`,
`error_message`.  Wall-clock instants (`start_time`, `end_time`) are not
modelled. -/
structure ProgressRecord where
  filePath : String
  fileSizeBytes : Option Nat
  status : Status
  recordsLoaded : Option Nat
  errorMessage : Option String
deriving DecidableEq, Repr

/-- A bronze table slice key `(data_date, exchange, source_file)`. -/
structure Slice where
  dataDate : Nat
  exchange : String
  sourceFile : String
deriving DecidableEq, Repr

/-- A `gold.daily_load_stats` row (the time-free columns), modelled from
the spec (section 4.3): `total_files`, `successful_files`, `failed_files`,
`total_records`, `avg_records_per_file = total_records /
max(successful_files, 1)`. -/
structure DailyRow where
  totalFiles : Nat
  successfulFiles : Nat
  failedFiles : Nat
  totalRecords : Nat
  avgRecordsPerFile : ℚ
deriving DecidableEq, Repr

/-- A `gold.weekly_load_stats` row (the time-free columns): 7-day sums
`total_files`, `total_records` and per-day means `avg_daily_files`,
`avg_daily_records`. -/
structure WeeklyRow where
  totalFiles : Nat
  totalRecords : Nat
  avgDailyFiles : ℚ
  avgDailyRecords : ℚ
deriving DecidableEq, Repr

/-- The authoritative Analytical Store state: progress ledger, bronze slice
row counts, daily and weekly statistics. -/
structure LedgerState where
  progress : List (Key × ProgressRecord)
  bronze : List (Slice × Nat)
  daily : List ((Nat × String) × DailyRow)
  weekly : List ((Nat × String) × WeeklyRow)
deriving DecidableEq, Repr

def initState : LedgerState := ⟨[], [], [], []⟩

/-- Row count of a bronze slice (0 when the slice holds no rows). -/
def bronzeCount (st : LedgerState) (s : Slice) : Nat :=
  (lookupA s st.bronze).getD 0

/-- Modelled from the spec: the object-store path resolved by the worker
for a `(exchange, date)` job; the model only needs it to be a fixed
injective function of the key (the bit-exact SQL path function is
`get_s3_path` below). -/
def pathOf (k : Key) : String :=
  k.exchange ++ "-" ++ toString k.dataDate

/-- The bronze slice a worker job writes into. -/
def sliceOf (k : Key) : Slice :=
  ⟨k.dataDate, k.exchange, pathOf k⟩

theorem sliceOf_inj {k k' : Key} (h : sliceOf k = sliceOf k') : k = k' := by
  cases k; cases k'
  simp only [sliceOf, Slice.mk.injEq] at h
  simp [Key.mk.injEq, h.1, h.2.1]

/-! ### Statistics aggregation

Modelled from the spec (section 4.3): the Daily Statistics row for
`(stats_date, exchange)` is a full aggregation over all Progress Records
with that `data_date` and `exchange`. -/

/-- Progress records whose identity matches `(d, ex)`. -/
def recordsFor (progress : List (Key × ProgressRecord)) (d : Nat) (ex : String) :
    List ProgressRecord :=
  (progress.filter (fun p => p.1.dataDate == d && p.1.exchange == ex)).map (·.2)

/-- Modelled from the spec: pure aggregation of Progress Records into a
Daily Statistics row, with `avg_records_per_file = total_records /
max(successful_files, 1)`. -/
def aggregateDaily (recs : List ProgressRecord) : DailyRow :=
  let succ := (recs.filter (fun r => r.status == Status.completed)).length
  let totRec := (recs.map (fun r => r.recordsLoaded.getD 0)).sum
  { totalFiles := recs.length
    successfulFiles := succ
    failedFiles := (recs.filter (fun r => r.status == Status.failed)).length
    totalRecords := totRec
    avgRecordsPerFile := mkRat (totRec : Int) (max succ 1) }

/-- Modelled from the spec: refresh of the Daily Statistics row for
`(d, ex)` after a progress state transition. -/
def refreshDaily (st : LedgerState) (d : Nat) (ex : String) : LedgerState :=
  { st with daily := upsertA (d, ex) (aggregateDaily (recordsFor st.progress d ex)) st.daily }

/-- The most recent Sunday on or before day `d` (the epoch is a Sunday, so
Sundays are the multiples of 7). -/
def sundayOnOrBefore (d : Nat) : Nat := d - d % 7

/-- The 7-day window `[w-6, w]` ending on day `w`. -/
def weekWindow (w : Nat) : List Nat :=
  (List.range 7).map (fun i => w - 6 + i)

/-- Daily rows of the window that have at least one completed file; a day
with zero completed files (or no row at all) is dropped, so it contributes
0 to the sums and is excluded from the means. -/
def contributingDays (daily : List ((Nat × String) × DailyRow)) (w : Nat) (ex : String) :
    List DailyRow :=
  (weekWindow w).filterMap (fun d =>
    match lookupA (d, ex) daily with
    | none => none
    | some r => if r.successfulFiles == 0 then none else some r)

/-- Modelled from the spec: the Weekly Rolling Statistics row for week
ending `w`: 7-day sums and per-day means over `[w-6, w]`. -/
def aggregateWeekly (daily : List ((Nat × String) × DailyRow)) (w : Nat) (ex : String) :
    WeeklyRow :=
  let days := contributingDays daily w ex
  let files := (days.map (·.totalFiles)).sum
  let recs := (days.map (·.totalRecords)).sum
  { totalFiles := files
    totalRecords := recs
    avgDailyFiles := mkRat (files : Int) days.length
    avgDailyRecords := mkRat (recs : Int) days.length }

/-- Modelled from the spec: refresh of the Weekly Rolling Statistics row
keyed by the most recent Sunday on or before the changed `stats_date`. -/
def refreshWeekly (st : LedgerState) (d : Nat) (ex : String) : LedgerState :=
  let w := sundayOnOrBefore d
  { st with weekly := upsertA (w, ex) (aggregateWeekly st.daily w ex) st.weekly }

/-- Aggregate refresh hook shared by the three terminal transitions. -/
def refreshStats (st : LedgerState) (d : Nat) (ex : String) : LedgerState :=
  refreshWeekly (refreshDaily st d ex) d ex

/-! ### Progress Ledger operations

Modelled from the spec (section 4.3).  The lifecycle is `started` to one
of `completed`, `failed`, `skipped`, with no further transitions except
the idempotent reclaim; terminal transitions stamp their outcome fields
and trigger the aggregate refresh. -/

inductive ClaimResult
  | Proceed
  | AlreadyDone
  | Conflict
deriving DecidableEq, Repr

/-- Modelled from the spec: `claim(exchange, date, file_path, size)`.
With no record it inserts `started` and proceeds; a `completed` record
yields `AlreadyDone`; any other existing record is retried (overwritten to
`started`) in idempotent mode and is a `Conflict` otherwise. -/
def ledgerClaim (idem : Bool) (st : LedgerState) (k : Key) (path : String)
    (size : Option Nat) : ClaimResult × LedgerState :=
  match lookupA k st.progress with
  | none =>
      (ClaimResult.Proceed,
        { st with progress := upsertA k ⟨path, size, Status.started, none, none⟩ st.progress })
  | some r =>
      if r.status = Status.completed then (ClaimResult.AlreadyDone, st)
      else if idem then
        (ClaimResult.Proceed,
          { st with progress := upsertA k ⟨path, size, Status.started, none, none⟩ st.progress })
      else (ClaimResult.Conflict, st)

/-- Modelled from the spec: `complete(exchange, date, records_loaded)`.
Only a `started` record transitions (the lifecycle admits no transition
out of a terminal state); the refresh hook runs afterwards. -/
def ledgerComplete (st : LedgerState) (k : Key) (n : Nat) : LedgerState :=
  match lookupA k st.progress with
  | some r =>
      if r.status = Status.started then
        refreshStats
          { st with progress :=
              upsertA k { r with status := Status.completed, recordsLoaded := some n,
                                 errorMessage := none } st.progress }
          k.dataDate k.exchange
      else st
  | none => st

/-- Modelled from the spec: `fail(exchange, date, error)`. -/
def ledgerFail (st : LedgerState) (k : Key) (err : String) : LedgerState :=
  match lookupA k st.progress with
  | some r =>
      if r.status = Status.started then
        refreshStats
          { st with progress :=
              upsertA k { r with status := Status.failed, recordsLoaded := none,
                                 errorMessage := some err } st.progress }
          k.dataDate k.exchange
      else st
  | none => st

/-- Modelled from the spec: `skip(exchange, date, reason)`.  The worker
emits skips before a record necessarily exists (cancellation, missing
source), so an absent record is inserted directly as `skipped`. -/
def ledgerSkip (st : LedgerState) (k : Key) (_reason : String) : LedgerState :=
  match lookupA k st.progress with
  | some r =>
      if r.status = Status.started then
        refreshStats
          { st with progress :=
              upsertA k { r with status := Status.skipped, recordsLoaded := none,
                                 errorMessage := none } st.progress }
          k.dataDate k.exchange
      else st
  | none =>
      refreshStats
        { st with progress :=
            upsertA k ⟨pathOf k, none, Status.skipped, none, none⟩ st.progress }
        k.dataDate k.exchange

/-! ### Ingestion Worker

Modelled from the spec (section 4.5).  The environment of one job is the
state of its source blob; the cancellation token value is the one observed
at the worker's pre-transaction boundary check (the algorithm has no check
inside the transaction). -/

/-- State of the source blob for one `(exchange, date)`: absent, or
present with a size and a bulk-load outcome (`none` models an error midway
through the load, `some n` a clean stream of `n` records). -/
inductive SourceState
  | missing
  | file (sizeBytes : Nat) (loadResult : Option Nat)
deriving DecidableEq, Repr

/-- The result one worker reports back to the Job Runner. -/
structure WorkerResult where
  status : Status
  reason : Option String
  errorMessage : Option String
  recordsLoaded : Option Nat
deriving DecidableEq, Repr

def shutdownResult : WorkerResult :=
  ⟨Status.skipped, some "shutdown", none, none⟩

def idempotentSkipResult : WorkerResult :=
  ⟨Status.skipped, some "idempotent: already completed", none, none⟩

/-- Modelled from the spec: one Ingestion Worker execution (section 4.5,
steps 1-8).  Check the token; resolve the source (`head`); `claim`; open a
transaction and bulk-load the stream; on error roll back (the bronze store
is untouched) and `fail`; on success commit, count the slice and
`complete`. -/
def runWorker (idem : Bool) (cancelled : Bool) (src : SourceState)
    (st : LedgerState) (k : Key) : WorkerResult × LedgerState :=
  if cancelled then
    (shutdownResult, ledgerSkip st k "shutdown")
  else
    match src with
    | SourceState.missing =>
        (⟨Status.skipped, some "no source file", none, none⟩,
          ledgerSkip st k "no source file")
    | SourceState.file size load =>
        match ledgerClaim idem st k (pathOf k) (some size) with
        | (ClaimResult.AlreadyDone, st₁) => (idempotentSkipResult, st₁)
        | (ClaimResult.Conflict, st₁) =>
            (⟨Status.failed, none, some "already in progress elsewhere", none⟩, st₁)
        | (ClaimResult.Proceed, st₁) =>
            match load with
            | none =>
                (⟨Status.failed, none, some "bulk load error", none⟩,
                  ledgerFail st₁ k "bulk load error")
            | some n =>
                let st₂ := { st₁ with
                  bronze := upsertA (sliceOf k) (bronzeCount st₁ (sliceOf k) + n) st₁.bronze }
                let cnt := bronzeCount st₂ (sliceOf k)
                (⟨Status.completed, none, none, some cnt⟩, ledgerComplete st₂ k cnt)

/-! ### Job Runner

Modelled from the spec (section 4.6): one invocation walks its exchange
list sequentially; the cancellation token is sampled once per worker, at
that worker's pre-transaction boundary. -/

/-- Modelled from the spec: the Job Runner.  `tok i` is the cancellation
token value observed at the boundary check of the `i`-th worker. -/
def runJobs (idem : Bool) (tok : Nat → Bool) (jobs : List (Key × SourceState))
    (st : LedgerState) : List WorkerResult × LedgerState :=
  match jobs with
  | [] => ([], st)
  | (k, src) :: rest =>
      let out := runWorker idem (tok 0) src st k
      let outs := runJobs idem (fun i => tok (i + 1)) rest out.2
      (out.1 :: outs.1, outs.2)

/-! ### Remote Ledger dual-writer

Modelled from the spec (section 4.4): every authoritative Analytical Store
write is mirrored best-effort to the Remote Ledger Store.  A failed
connect at startup, or a failed mirror mid-run, flips `remote_enabled`
off for the process lifetime and never touches the local write. -/

/-- One mirrored write, as appended to the Remote store's log. -/
inductive RemoteWrite
  | progressRow (k : Key) (r : ProgressRecord)
  | dailyRow (d : Nat) (ex : String) (row : DailyRow)
  | weeklyRow (w : Nat) (ex : String) (row : WeeklyRow)
deriving DecidableEq, Repr

/-- Process state of the dual-writer: the authoritative local store, the
`remote_enabled` flag and the Remote store's write log. -/
structure DualState where
  core : LedgerState
  remoteEnabled : Bool
  remote : List RemoteWrite
deriving DecidableEq, Repr

/-- Modelled from the spec: startup connect to the Remote store; on
failure log once, set `remote_enabled = false`, continue. -/
def initDual (connectOk : Bool) : DualState :=
  ⟨initState, connectOk, []⟩

/-- Modelled from the spec: one best-effort mirror call.  `avail` is
whether the Remote store is reachable for this call; an unreachable
Remote degrades the flag and leaves everything else alone. -/
def mirror (avail : Bool) (w : RemoteWrite) (ds : DualState) : DualState :=
  if ds.remoteEnabled then
    if avail then { ds with remote := w :: ds.remote }
    else { ds with remoteEnabled := false }
  else ds

/-- Mirror the progress row and refreshed statistics rows of key `k`, as
read back from the local store after the authoritative write. -/
def mirrorKey (avail : Bool) (k : Key) (ds : DualState) : DualState :=
  let ds₁ :=
    match lookupA k ds.core.progress with
    | some r => mirror avail (RemoteWrite.progressRow k r) ds
    | none => ds
  let ds₂ :=
    match lookupA (k.dataDate, k.exchange) ds.core.daily with
    | some row => mirror avail (RemoteWrite.dailyRow k.dataDate k.exchange row) ds₁
    | none => ds₁
  match lookupA (sundayOnOrBefore k.dataDate, k.exchange) ds.core.weekly with
  | some row =>
      mirror avail (RemoteWrite.weeklyRow (sundayOnOrBefore k.dataDate) k.exchange row) ds₂
  | none => ds₂

/-- Modelled from the spec: one worker execution over the dual store: the
authoritative local write runs first and unconditionally; the mirror is
attempted afterwards and its failure is absorbed. -/
def runWorkerDual (avail : Bool) (idem : Bool) (cancelled : Bool) (src : SourceState)
    (ds : DualState) (k : Key) : WorkerResult × DualState :=
  let out := runWorker idem cancelled src ds.core k
  (out.1, mirrorKey avail k { ds with core := out.2 })

/-- Modelled from the spec: the Job Runner over the dual store; `avail i`
is the Remote store's reachability during the `i`-th worker. -/
def runJobsDual (avail : Nat → Bool) (idem : Bool) (tok : Nat → Bool)
    (jobs : List (Key × SourceState)) (ds : DualState) : List WorkerResult × DualState :=
  match jobs with
  | [] => ([], ds)
  | (k, src) :: rest =>
      let out := runWorkerDual (avail 0) idem (tok 0) src ds k
      let outs := runJobsDual (fun i => avail (i + 1)) idem (fun i => tok (i + 1)) rest out.2
      (out.1 :: outs.1, outs.2)

/-! ### Object-store path resolution

Direct embedding of the sql helper `get_s3_path` from the partitioned
schema script (`CREATE OR REPLACE FUNCTION get_s3_path`). -/

/-- SQL `UPPER`, on the character list of the string. -/
def sqlUpper (s : String) : String := ⟨s.data.map Char.toUpper⟩

/-- A SQL `DATE` value. -/
structure SQLDate where
  year : Nat
  month : Nat
  day : Nat
deriving DecidableEq, Repr

def pad2 (n : Nat) : String := if n < 10 then "0" ++ toString n else toString n

def pad4 (n : Nat) : String :=
  if n < 10 then "000" ++ toString n
  else if n < 100 then "00" ++ toString n
  else if n < 1000 then "0" ++ toString n
  else toString n

/-- SQL `date_val::VARCHAR`: ISO `YYYY-MM-DD` rendering of a date. -/
def dateVarchar (d : SQLDate) : String :=
  pad4 d.year ++ "-" ++ pad2 d.month ++ "-" ++ pad2 d.day

/-- Embedded from the schema script: `get_s3_path(exchange_name, date_val,
processing_stage DEFAULT 'ingestion')`, returning
`'s3://vendor-data-s3/LSEG/TRTH/' || UPPER(exchange_name) || '/' ||
processing_stage || '/' || date_val::VARCHAR || '/data/merged/' ||
UPPER(exchange_name) || '-' || date_val::VARCHAR ||
'-NORMALIZEDMP-Data-1-of-1.csv.gz'`. -/
def get_s3_path (exchange_name : String) (date_val : SQLDate)
    (processing_stage : String := "ingestion") : String :=
  "s3://vendor-data-s3/LSEG/TRTH/" ++ sqlUpper exchange_name ++ "/" ++ processing_stage ++ "/"
    ++ dateVarchar date_val ++ "/data/merged/" ++ sqlUpper exchange_name ++ "-"
    ++ dateVarchar date_val ++ "-NORMALIZEDMP-Data-1-of-1.csv.gz"

/-- The spec's path template (section 4.1), stated in its own words:
`<root>/<vendor>/<product>/<EXCHANGE>/ingestion/<YYYY-MM-DD>/data/merged/`
`<EXCHANGE>-<YYYY-MM-DD>-NORMALIZEDMP-Data-1-of-1.csv.gz` with the
concrete root `s3://vendor-data-s3`, vendor `LSEG`, product `TRTH`. -/
def specDailyPath (ex : String) (d : SQLDate) : String :=
  "s3://vendor-data-s3/LSEG/TRTH/" ++ ex ++ "/ingestion/" ++ dateVarchar d
    ++ "/data/merged/" ++ ex ++ "-" ++ dateVarchar d ++ "-NORMALIZEDMP-Data-1-of-1.csv.gz"

/-! ### Bronze table schemas

Direct embedding of the two schema scripts' bronze market-data DDL: the
flat script (`DECIMAL(15,6)` column set, no defaults) and the partitioned
script (`PARTITION BY (data_date, exchange)`, metadata defaults).  Only
column names and literal defaults are modelled. -/

/-- One column of a `CREATE TABLE`: its name and its literal `DEFAULT`,
when one is declared. -/
structure ColumnDef where
  colName : String
  defaultVal : Option String
deriving DecidableEq, Repr

def col (n : String) : ColumnDef := ⟨n, none⟩

/-- `bronze.lse_market_data_raw` of the flat schema script. -/
def lseRawFlat : List ColumnDef :=
  [col "symbol", col "timestamp_utc", col "price", col "volume", col "bid_price",
   col "ask_price", col "bid_size", col "ask_size", col "trade_type",
   col "market_mechanism", col "participant_id", col "order_book_id",
   col "tick_direction", col "trade_flags", col "currency", col "market_segment",
   col "instrument_type",
   col "data_date", col "exchange", col "processing_stage", col "source_file",
   col "ingestion_timestamp"]

/-- `bronze.cme_market_data_raw` of the flat schema script. -/
def cmeRawFlat : List ColumnDef :=
  [col "symbol", col "timestamp_utc", col "price", col "volume", col "bid_price",
   col "ask_price", col "bid_size", col "ask_size", col "trade_type",
   col "settlement_price", col "open_interest", col "contract_month",
   col "product_group", col "contract_size", col "tick_size",
   col "data_date", col "exchange", col "processing_stage", col "source_file",
   col "ingestion_timestamp"]

/-- `bronze.nyq_market_data_raw` of the flat schema script. -/
def nyqRawFlat : List ColumnDef :=
  [col "symbol", col "timestamp_utc", col "price", col "volume", col "bid_price",
   col "ask_price", col "bid_size", col "ask_size", col "trade_type",
   col "sector", col "market_cap", col "listing_exchange", col "primary_exchange",
   col "security_type", col "dividend_yield", col "pe_ratio",
   col "data_date", col "exchange", col "processing_stage", col "source_file",
   col "ingestion_timestamp"]

/-- `bronze.lse_market_data_raw` of the partitioned schema script. -/
def lseRawPartitioned : List ColumnDef :=
  [col "date_time", col "symbol", col "message_type", col "exchange_time",
   col "price", col "quantity", col "side", col "trade_id", col "order_id",
   col "bid_price", col "ask_price", col "bid_size", col "ask_size",
   col "high_price", col "low_price", col "open_price", col "close_price",
   col "volume", col "turnover", col "vwap",
   col "data_date", ⟨"exchange", some "LSE"⟩, ⟨"processing_stage", some "ingestion"⟩,
   col "source_file", ⟨"ingestion_timestamp", some "NOW()"⟩]

/-- `bronze.cme_market_data_raw` of the partitioned schema script. -/
def cmeRawPartitioned : List ColumnDef :=
  [col "date_time", col "symbol", col "message_type", col "exchange_time",
   col "price", col "quantity", col "side", col "trade_id", col "order_id",
   col "bid_price", col "ask_price", col "bid_size", col "ask_size",
   col "contract_month", col "contract_year", col "settlement_price",
   col "open_interest",
   col "high_price", col "low_price", col "open_price", col "close_price",
   col "volume", col "turnover",
   col "data_date", ⟨"exchange", some "CME"⟩, ⟨"processing_stage", some "ingestion"⟩,
   col "source_file", ⟨"ingestion_timestamp", some "NOW()"⟩]

/-- `bronze.nyq_market_data_raw` of the partitioned schema script. -/
def nyqRawPartitioned : List ColumnDef :=
  [col "date_time", col "symbol", col "message_type", col "exchange_time",
   col "price", col "quantity", col "side", col "trade_id", col "order_id",
   col "bid_price", col "ask_price", col "bid_size", col "ask_size",
   col "high_price", col "low_price", col "open_price", col "close_price",
   col "volume", col "turnover", col "vwap",
   col "market_cap", col "sector",
   col "data_date", ⟨"exchange", some "NYQ"⟩, ⟨"processing_stage", some "ingestion"⟩,
   col "source_file", ⟨"ingestion_timestamp", some "NOW()"⟩]

/-- The bronze market-data tables of the flat schema script. -/
def bronzeFlatTables : List (String × List ColumnDef) :=
  [("bronze.lse_market_data_raw", lseRawFlat),
   ("bronze.cme_market_data_raw", cmeRawFlat),
   ("bronze.nyq_market_data_raw", nyqRawFlat)]

/-- The bronze market-data tables of the partitioned schema script. -/
def bronzePartitionedTables : List (String × List ColumnDef) :=
  [("bronze.lse_market_data_raw", lseRawPartitioned),
   ("bronze.cme_market_data_raw", cmeRawPartitioned),
   ("bronze.nyq_market_data_raw", nyqRawPartitioned)]

/-- The four metadata columns the spec's section 6 lists, then
`processing_stage`. -/
def fourMetadataColumns : List String :=
  ["data_date", "exchange", "source_file", "ingestion_timestamp"]

/-! ### Fixed-point statistics columns

Direct embedding of the Supabase precision migration
(`ALTER COLUMN ... TYPE DECIMAL(20,2)`); the matching Analytical Store
column types are defined by the absent loading script and are therefore
modelled from the spec. -/

/-- A SQL `DECIMAL(precision, scale)` type. -/
structure DecimalType where
  precision : Nat
  scale : Nat
deriving DecidableEq, Repr

/-- `q` is exactly representable in the fixed-point type `t`. -/
def DecimalType.representable (t : DecimalType) (q : ℚ) : Prop :=
  ∃ n : ℤ, q = (n : ℚ) / ((10 : ℚ) ^ t.scale) ∧ n.natAbs < 10 ^ t.precision

/-- Embedded from the migration script: Supabase
`gold.daily_load_stats.avg_records_per_file` after
`ALTER COLUMN avg_records_per_file TYPE DECIMAL(20,2)`. -/
def supabaseDailyAvgType : DecimalType := ⟨20, 2⟩

/-- Embedded from the migration script: Supabase
`gold.weekly_load_stats.avg_daily_records` after
`ALTER COLUMN avg_daily_records TYPE DECIMAL(20,2)`. -/
def supabaseWeeklyAvgType : DecimalType := ⟨20, 2⟩

/-- Modelled from the spec: the Analytical Store (DuckDB) column
`gold.daily_load_stats.avg_records_per_file`, declared by the absent
loading script; the spec requires the same wide fixed-point on both
sides. -/
def duckdbDailyAvgType : DecimalType := ⟨20, 2⟩

/-- Modelled from the spec: the Analytical Store (DuckDB) column
`gold.weekly_load_stats.avg_daily_records`. -/
def duckdbWeeklyAvgType : DecimalType := ⟨20, 2⟩

/-! ### Reachable states and the store invariant -/

/-- Ledger states reachable from the empty store by worker executions. -/
inductive Reachable : LedgerState → Prop
  | init : Reachable initState
  | step (idem cancelled : Bool) (src : SourceState) (k : Key) {st : LedgerState} :
      Reachable st → Reachable (runWorker idem cancelled src st k).2

/-- The store invariant, on the progress and bronze components: every
record carries its key's resolved path; a completed record's
`records_loaded` equals the row count of its bronze slice; a non-completed
or absent record has an empty slice. -/
def InvPB (p : List (Key × ProgressRecord)) (b : List (Slice × Nat)) : Prop :=
  ∀ k : Key,
    (lookupA k p = none → (lookupA (sliceOf k) b).getD 0 = 0) ∧
    ∀ r : ProgressRecord, lookupA k p = some r →
      r.filePath = pathOf k ∧
      (r.status = Status.completed → r.recordsLoaded = some ((lookupA (sliceOf k) b).getD 0)) ∧
      (r.status ≠ Status.completed → (lookupA (sliceOf k) b).getD 0 = 0)

def Inv (st : LedgerState) : Prop := InvPB st.progress st.bronze

theorem invPB_upsert_nonterm {p : List (Key × ProgressRecord)} {b : List (Slice × Nat)}
    {k : Key} {v : ProgressRecord} (h : InvPB p b) (hpath : v.filePath = pathOf k)
    (hst : v.status ≠ Status.completed) (hb : (lookupA (sliceOf k) b).getD 0 = 0) :
    InvPB (upsertA k v p) b := by
  intro k'
  by_cases hk : k' = k
  · subst hk
    refine ⟨fun hn => ?_, fun r hr => ?_⟩
    · rw [lookupA_upsertA_self] at hn; cases hn
    · rw [lookupA_upsertA_self] at hr
      cases hr
      exact ⟨hpath, fun hcomp => absurd hcomp hst, fun _ => hb⟩
  · have hne : k ≠ k' := fun e => hk e.symm
    rw [show lookupA k' (upsertA k v p) = lookupA k' p from lookupA_upsertA_ne v p hne]
    exact h k'

theorem invPB_upsert_complete {p : List (Key × ProgressRecord)} {b : List (Slice × Nat)}
    {k : Key} {v : ProgressRecord} {m : Nat} (h : InvPB p b) (hpath : v.filePath = pathOf k)
    (hst : v.status = Status.completed) (hrl : v.recordsLoaded = some m) :
    InvPB (upsertA k v p) (upsertA (sliceOf k) m b) := by
  intro k'
  by_cases hk : k' = k
  · subst hk
    refine ⟨fun hn => ?_, fun r hr => ?_⟩
    · rw [lookupA_upsertA_self] at hn; cases hn
    · rw [lookupA_upsertA_self] at hr
      cases hr
      refine ⟨hpath, fun _ => ?_, fun hnc => absurd hst hnc⟩
      rw [lookupA_upsertA_self]
      exact hrl
  · have hne : k ≠ k' := fun e => hk e.symm
    have hsne : sliceOf k ≠ sliceOf k' := fun e => hne (sliceOf_inj e)
    rw [show lookupA k' (upsertA k v p) = lookupA k' p from lookupA_upsertA_ne v p hne,
        show lookupA (sliceOf k') (upsertA (sliceOf k) m b) = lookupA (sliceOf k') b from
          lookupA_upsertA_ne m b hsne]
    exact h k'

theorem inv_initState : Inv initState := by
  intro k
  exact ⟨fun _ => rfl, fun r hr => by simp [initState, lookupA] at hr⟩

theorem inv_ledgerSkip {st : LedgerState} (h : Inv st) (k : Key) (reason : String) :
    Inv (ledgerSkip st k reason) := by
  unfold ledgerSkip
  rcases hl : lookupA k st.progress with _ | r
  · exact invPB_upsert_nonterm (v := ⟨pathOf k, none, Status.skipped, none, none⟩)
      h rfl (by simp) ((h k).1 hl)
  · by_cases hst : r.status = Status.started
    · simp only [hst, if_pos rfl]
      have hrec := (h k).2 r hl
      exact invPB_upsert_nonterm
        (v := { r with status := Status.skipped, recordsLoaded := none, errorMessage := none })
        h hrec.1 (by simp) (hrec.2.2 (by rw [hst]; intro e; cases e))
    · simp only [if_neg hst]
      exact h

theorem inv_ledgerFail {st : LedgerState} (h : Inv st) (k : Key) (err : String) :
    Inv (ledgerFail st k err) := by
  unfold ledgerFail
  rcases hl : lookupA k st.progress with _ | r
  · exact h
  · by_cases hst : r.status = Status.started
    · simp only [hst, if_pos rfl]
      have hrec := (h k).2 r hl
      exact invPB_upsert_nonterm
        (v := { r with status := Status.failed, recordsLoaded := none,
                       errorMessage := some err })
        h hrec.1 (by simp) (hrec.2.2 (by rw [hst]; intro e; cases e))
    · simp only [if_neg hst]
      exact h

theorem inv_commitPath {st : LedgerState} (h : Inv st) (k : Key) (size n : Nat)
    (hb : (lookupA (sliceOf k) st.bronze).getD 0 = 0) :
    Inv (ledgerComplete
      { st with
        progress := upsertA k ⟨pathOf k, some size, Status.started, none, none⟩ st.progress
        bronze := upsertA (sliceOf k)
          ((lookupA (sliceOf k) st.bronze).getD 0 + n) st.bronze }
      k
      ((lookupA (sliceOf k)
          (upsertA (sliceOf k) ((lookupA (sliceOf k) st.bronze).getD 0 + n)
            st.bronze)).getD 0)) := by
  have hInvC : InvPB (upsertA k (⟨pathOf k, some size, Status.started, none, none⟩ :
      ProgressRecord) st.progress) st.bronze :=
    invPB_upsert_nonterm h rfl (by simp) hb
  have hcnt : (lookupA (sliceOf k)
      (upsertA (sliceOf k) ((lookupA (sliceOf k) st.bronze).getD 0 + n)
        st.bronze)).getD 0 = (lookupA (sliceOf k) st.bronze).getD 0 + n := by
    rw [lookupA_upsertA_self]; rfl
  unfold ledgerComplete
  rw [show lookupA k (upsertA k (⟨pathOf k, some size, Status.started, none, none⟩ :
      ProgressRecord) st.progress) = some ⟨pathOf k, some size, Status.started, none, none⟩
    from lookupA_upsertA_self k _ st.progress]
  simp only [if_pos rfl, hcnt]
  exact invPB_upsert_complete hInvC rfl rfl rfl

theorem inv_runWorker (idem cancelled : Bool) (src : SourceState) (st : LedgerState)
    (k : Key) (h : Inv st) : Inv (runWorker idem cancelled src st k).2 := by
  unfold runWorker
  cases cancelled with
  | true => exact inv_ledgerSkip h k "shutdown"
  | false =>
    cases src with
    | missing => exact inv_ledgerSkip h k "no source file"
    | file size load =>
      rcases hl : lookupA k st.progress with _ | r
      · have hClaim : ledgerClaim idem st k (pathOf k) (some size) =
            (ClaimResult.Proceed,
              { st with
                progress :=
                  upsertA k ⟨pathOf k, some size, Status.started, none, none⟩ st.progress }) := by
          simp [ledgerClaim, hl]
        simp only [Bool.false_eq_true, if_false, hClaim]
        cases load with
        | none =>
          have hInvC : Inv { st with
              progress :=
                upsertA k ⟨pathOf k, some size, Status.started, none, none⟩ st.progress } :=
            invPB_upsert_nonterm h rfl (by simp) ((h k).1 hl)
          exact inv_ledgerFail hInvC k "bulk load error"
        | some n => exact inv_commitPath h k size n ((h k).1 hl)
      · by_cases hcomp : r.status = Status.completed
        · have hClaim : ledgerClaim idem st k (pathOf k) (some size) =
              (ClaimResult.AlreadyDone, st) := by
            simp [ledgerClaim, hl, hcomp]
          simp only [Bool.false_eq_true, if_false, hClaim]
          exact h
        · have hb : (lookupA (sliceOf k) st.bronze).getD 0 = 0 :=
            ((h k).2 r hl).2.2 hcomp
          cases idem with
          | false =>
            have hClaim : ledgerClaim false st k (pathOf k) (some size) =
                (ClaimResult.Conflict, st) := by
              simp [ledgerClaim, hl, hcomp]
            simp only [Bool.false_eq_true, if_false, hClaim]
            exact h
          | true =>
            have hClaim : ledgerClaim true st k (pathOf k) (some size) =
                (ClaimResult.Proceed,
                  { st with
                    progress :=
                      upsertA k ⟨pathOf k, some size, Status.started, none, none⟩
                        st.progress }) := by
              simp [ledgerClaim, hl, hcomp]
            simp only [Bool.false_eq_true, if_false, hClaim]
            cases load with
            | none =>
              have hInvC : Inv { st with
                  progress :=
              upsertA k ⟨pathOf k, some size, Status.started, none, none⟩ st.progress } :=
                invPB_upsert_nonterm h rfl (by simp) hb
              exact inv_ledgerFail hInvC k "bulk load error"
            | some n => exact inv_commitPath h k size n hb

/-- Every reachable state satisfies the store invariant. -/
theorem reachable_inv {st : LedgerState} (h : Reachable st) : Inv st := by
  induction h with
  | init => exact inv_initState
  | step idem cancelled src k _ ih => exact inv_runWorker idem cancelled src _ k ih

/-! ### Frame lemmas: which components each operation leaves untouched -/

theorem refreshStats_bronze (st : LedgerState) (d : Nat) (ex : String) :
    (refreshStats st d ex).bronze = st.bronze := rfl

theorem refreshStats_progress (st : LedgerState) (d : Nat) (ex : String) :
    (refreshStats st d ex).progress = st.progress := rfl

theorem ledgerSkip_bronze (st : LedgerState) (k : Key) (reason : String) :
    (ledgerSkip st k reason).bronze = st.bronze := by
  unfold ledgerSkip
  rcases lookupA k st.progress with _ | r
  · rfl
  · by_cases hst : r.status = Status.started <;> simp [hst, refreshStats_bronze]

theorem ledgerFail_bronze (st : LedgerState) (k : Key) (err : String) :
    (ledgerFail st k err).bronze = st.bronze := by
  unfold ledgerFail
  rcases lookupA k st.progress with _ | r
  · rfl
  · by_cases hst : r.status = Status.started <;> simp [hst, refreshStats_bronze]

theorem ledgerComplete_bronze (st : LedgerState) (k : Key) (n : Nat) :
    (ledgerComplete st k n).bronze = st.bronze := by
  unfold ledgerComplete
  rcases lookupA k st.progress with _ | r
  · rfl
  · by_cases hst : r.status = Status.started <;> simp [hst, refreshStats_bronze]

theorem ledgerClaim_bronze (idem : Bool) (st : LedgerState) (k : Key) (path : String)
    (size : Option Nat) : ((ledgerClaim idem st k path size).2).bronze = st.bronze := by
  unfold ledgerClaim
  rcases lookupA k st.progress with _ | r
  · rfl
  · by_cases hc : r.status = Status.completed
    · simp [hc]
    · cases idem <;> simp [hc]

/-! ### Fixture states used by the closed witnesses -/

def kW : Key := ⟨"LSE", 7⟩

/-- State after one worker whose bulk load fails midway. -/
def stFailed : LedgerState :=
  (runWorker true false (SourceState.file 100 none) initState kW).2

/-- State after one worker that loads 5 records successfully. -/
def stCompleted : LedgerState :=
  (runWorker true false (SourceState.file 100 (some 5)) initState kW).2

theorem stFailed_reachable : Reachable stFailed :=
  Reachable.step true false (SourceState.file 100 none) kW Reachable.init

theorem stCompleted_reachable : Reachable stCompleted :=
  Reachable.step true false (SourceState.file 100 (some 5)) kW Reachable.init

/-! ### Claim C1 -/

/-- C1: for every Progress Record whose status is `failed`, `skipped` or
`started`, the corresponding bronze slice `(data_date, exchange,
source_file)` holds 0 rows; and each per-file bulk load is atomic: a load
that errors leaves the bronze store exactly as it was (rollback), so on
commit either every row of the file is visible or none is. -/
theorem no_partial_loads :
    (∀ (st : LedgerState) (k : Key) (r : ProgressRecord), Reachable st →
        lookupA k st.progress = some r → r.status ≠ Status.completed →
        bronzeCount st ⟨k.dataDate, k.exchange, r.filePath⟩ = 0) ∧
    (∀ (idem cancelled : Bool) (size : Nat) (st : LedgerState) (k : Key),
        ((runWorker idem cancelled (SourceState.file size none) st k).2).bronze
          = st.bronze) := by
  constructor
  · intro st k r hreach hl hne
    have hrec := ((reachable_inv hreach) k).2 r hl
    have hz := hrec.2.2 hne
    rw [hrec.1]
    exact hz
  · intro idem cancelled size st k
    unfold runWorker
    cases cancelled with
    | true => exact ledgerSkip_bronze st k "shutdown"
    | false =>
      rcases hcl : ledgerClaim idem st k (pathOf k) (some size) with ⟨res, st₁⟩
      have hb : st₁.bronze = st.bronze := by
        have := ledgerClaim_bronze idem st k (pathOf k) (some size)
        rw [hcl] at this
        exact this
      cases res with
      | AlreadyDone => simp only [Bool.false_eq_true, if_false, hcl]; exact hb
      | Conflict => simp only [Bool.false_eq_true, if_false, hcl]; exact hb
      | Proceed =>
        simp only [Bool.false_eq_true, if_false, hcl]
        rw [ledgerFail_bronze]
        exact hb

/-- Closed witness for C1 at a concrete failed load. -/
theorem no_partial_loads_witness :
    bronzeCount stFailed ⟨kW.dataDate, kW.exchange,
      (⟨"LSE-7", some 100, Status.failed, none, some "bulk load error"⟩ :
        ProgressRecord).filePath⟩ = 0 ∧
    ((runWorker true false (SourceState.file 100 none) initState kW).2).bronze
      = initState.bronze :=
  ⟨no_partial_loads.1 stFailed kW
      ⟨"LSE-7", some 100, Status.failed, none, some "bulk load error"⟩
      stFailed_reachable (by decide) (by decide),
    no_partial_loads.2 true false 100 initState kW⟩

/-! ### Claim C2 -/

/-- C2: for every Progress Record with status `completed`, its
`records_loaded` equals the row count of the bronze slice `(data_date,
exchange, source_file)` that matches it; the worker computes that count by
a query after the transaction commits and passes it to
`ledger.complete`. -/
theorem row_conservation :
    ∀ (st : LedgerState) (k : Key) (r : ProgressRecord), Reachable st →
      lookupA k st.progress = some r → r.status = Status.completed →
      r.recordsLoaded = some (bronzeCount st ⟨k.dataDate, k.exchange, r.filePath⟩) := by
  intro st k r hreach hl hc
  have hrec := ((reachable_inv hreach) k).2 r hl
  rw [hrec.1]
  exact hrec.2.1 hc

/-- Closed witness for C2 at a concrete completed load of 5 records. -/
theorem row_conservation_witness :
    (⟨"LSE-7", some 100, Status.completed, some 5, none⟩ :
        ProgressRecord).recordsLoaded
      = some (bronzeCount stCompleted ⟨kW.dataDate, kW.exchange,
          (⟨"LSE-7", some 100, Status.completed, some 5, none⟩ :
            ProgressRecord).filePath⟩) :=
  row_conservation stCompleted kW
    ⟨"LSE-7", some 100, Status.completed, some 5, none⟩
    stCompleted_reachable (by decide) rfl

/-! ### Worker path characterizations -/

theorem ledgerClaim_proceed {idem : Bool} {st : LedgerState} {k : Key} {path : String}
    {size : Option Nat} (h : (ledgerClaim idem st k path size).1 = ClaimResult.Proceed) :
    (ledgerClaim idem st k path size).2 =
      { st with progress := upsertA k ⟨path, size, Status.started, none, none⟩ st.progress } := by
  unfold ledgerClaim at h ⊢
  rcases hl : lookupA k st.progress with _ | r
  · simp
  · simp only [hl] at h
    by_cases hc : r.status = Status.completed
    · simp [hc] at h
    · cases idem with
      | true => simp [hc]
      | false => simp [hc] at h

theorem ledgerClaim_fresh {idem : Bool} {st : LedgerState} {k : Key} {path : String}
    {size : Option Nat} (hl : lookupA k st.progress = none) :
    (ledgerClaim idem st k path size).1 = ClaimResult.Proceed := by
  unfold ledgerClaim
  simp [hl]

/-- A worker whose claim proceeds and whose bulk load streams `n` records
cleanly: it commits, the slice grows by exactly `n`, and the ledger
records `completed` with that count. -/
theorem runWorker_proceed_some {idem : Bool} {st : LedgerState} {k : Key} {size n : Nat}
    (h : (ledgerClaim idem st k (pathOf k) (some size)).1 = ClaimResult.Proceed) :
    (runWorker idem false (SourceState.file size (some n)) st k).1
        = ⟨Status.completed, none, none, some (bronzeCount st (sliceOf k) + n)⟩ ∧
    lookupA k ((runWorker idem false (SourceState.file size (some n)) st k).2).progress
        = some ⟨pathOf k, some size, Status.completed,
            some (bronzeCount st (sliceOf k) + n), none⟩ ∧
    bronzeCount ((runWorker idem false (SourceState.file size (some n)) st k).2) (sliceOf k)
        = bronzeCount st (sliceOf k) + n := by
  have hpair : ledgerClaim idem st k (pathOf k) (some size) =
      (ClaimResult.Proceed,
        { st with
          progress :=
            upsertA k ⟨pathOf k, some size, Status.started, none, none⟩ st.progress }) := by
    have h2 := ledgerClaim_proceed h
    rcases hcl : ledgerClaim idem st k (pathOf k) (some size) with ⟨res, st₁⟩
    rw [hcl] at h h2
    simp at h h2
    rw [h, h2]
  simp only [runWorker, Bool.false_eq_true, if_false]
  rw [hpair]
  have hcnt : bronzeCount
      { st with
        progress := upsertA k ⟨pathOf k, some size, Status.started, none, none⟩ st.progress
        bronze := upsertA (sliceOf k)
          (bronzeCount
            { st with
              progress :=
                upsertA k ⟨pathOf k, some size, Status.started, none, none⟩ st.progress }
            (sliceOf k) + n) st.bronze } (sliceOf k)
      = bronzeCount st (sliceOf k) + n := by
    unfold bronzeCount
    rw [lookupA_upsertA_self]
    rfl
  refine ⟨?_, ?_, ?_⟩ <;>
    simp [ledgerComplete, bronzeCount, lookupA_upsertA_self, refreshStats_progress,
      refreshStats_bronze]


/-- A worker whose claim proceeds and whose bulk load errors midway: the
transaction rolls back (bronze exactly as before), and the ledger records
`failed` with the abbreviated error. -/
theorem runWorker_proceed_none {idem : Bool} {st : LedgerState} {k : Key} {size : Nat}
    (h : (ledgerClaim idem st k (pathOf k) (some size)).1 = ClaimResult.Proceed) :
    (runWorker idem false (SourceState.file size none) st k).1
        = ⟨Status.failed, none, some "bulk load error", none⟩ ∧
    lookupA k ((runWorker idem false (SourceState.file size none) st k).2).progress
        = some ⟨pathOf k, some size, Status.failed, none, some "bulk load error"⟩ ∧
    ((runWorker idem false (SourceState.file size none) st k).2).bronze = st.bronze := by
  have hpair : ledgerClaim idem st k (pathOf k) (some size) =
      (ClaimResult.Proceed,
        { st with
          progress :=
            upsertA k ⟨pathOf k, some size, Status.started, none, none⟩ st.progress }) := by
    have h2 := ledgerClaim_proceed h
    rcases hcl : ledgerClaim idem st k (pathOf k) (some size) with ⟨res, st₁⟩
    rw [hcl] at h h2
    simp at h h2
    rw [h, h2]
  simp only [runWorker, Bool.false_eq_true, if_false]
  rw [hpair]
  refine ⟨rfl, ?_, ?_⟩ <;>
    simp [ledgerFail, lookupA_upsertA_self, refreshStats_progress, refreshStats_bronze]

/-- A worker that finds its `(exchange, date)` already `completed`: the
claim answers `AlreadyDone`, the result is the idempotent skip and the
store is untouched. -/
theorem runWorker_alreadyDone {idem : Bool} {st : LedgerState} {k : Key}
    {r : ProgressRecord} (hl : lookupA k st.progress = some r)
    (hc : r.status = Status.completed) (size : Nat) (load : Option Nat) :
    runWorker idem false (SourceState.file size load) st k = (idempotentSkipResult, st) := by
  have hpair : ledgerClaim idem st k (pathOf k) (some size) =
      (ClaimResult.AlreadyDone, st) := by
    unfold ledgerClaim
    simp [hl, hc]
  simp only [runWorker, Bool.false_eq_true, if_false]
  rw [hpair]

/-! ### Claim C3 -/

/-- C3: running the Job Runner twice with `--idempotent` on the same
`(exchange, date)` leaves the store of the first run untouched (in
particular the bronze row count is that of a single run), the second
invocation's worker result is the idempotent skip, and the second `claim`
answers `AlreadyDone`. -/
theorem idempotent_resume :
    ∀ (k : Key) (size n : Nat) (st : LedgerState),
      lookupA k st.progress = none →
      runJobs true (fun _ => false) [(k, SourceState.file size (some n))]
          (runJobs true (fun _ => false) [(k, SourceState.file size (some n))] st).2
        = ([idempotentSkipResult],
            (runJobs true (fun _ => false) [(k, SourceState.file size (some n))] st).2) ∧
      bronzeCount (runJobs true (fun _ => false) [(k, SourceState.file size (some n))]
            (runJobs true (fun _ => false) [(k, SourceState.file size (some n))] st).2).2
          (sliceOf k)
        = bronzeCount
            (runJobs true (fun _ => false) [(k, SourceState.file size (some n))] st).2
            (sliceOf k) ∧
      (ledgerClaim true
          (runJobs true (fun _ => false) [(k, SourceState.file size (some n))] st).2
          k (pathOf k) (some size)).1 = ClaimResult.AlreadyDone := by
  intro k size n st hl
  have hfresh : (ledgerClaim true st k (pathOf k) (some size)).1 = ClaimResult.Proceed :=
    ledgerClaim_fresh hl
  have hw := runWorker_proceed_some (n := n) hfresh
  have hrun1 : runJobs true (fun _ => false) [(k, SourceState.file size (some n))] st
      = ([(runWorker true false (SourceState.file size (some n)) st k).1],
         (runWorker true false (SourceState.file size (some n)) st k).2) := rfl
  have hsecond :
      runWorker true false (SourceState.file size (some n))
          ((runWorker true false (SourceState.file size (some n)) st k).2) k
        = (idempotentSkipResult,
            (runWorker true false (SourceState.file size (some n)) st k).2) :=
    runWorker_alreadyDone hw.2.1 rfl size (some n)
  have hrun2 : runJobs true (fun _ => false) [(k, SourceState.file size (some n))]
        ((runWorker true false (SourceState.file size (some n)) st k).2)
      = ([(runWorker true false (SourceState.file size (some n))
            ((runWorker true false (SourceState.file size (some n)) st k).2) k).1],
         (runWorker true false (SourceState.file size (some n))
            ((runWorker true false (SourceState.file size (some n)) st k).2) k).2) := rfl
  refine ⟨?_, ?_, ?_⟩
  · rw [hrun1, hrun2, hsecond]
  · rw [hrun1, hrun2, hsecond]
  · rw [hrun1]
    unfold ledgerClaim
    simp [hw.2.1]

/-- Closed witness for C3: a fresh key, 100-byte file, 5 records. -/
theorem idempotent_resume_witness :
    runJobs true (fun _ => false) [(⟨"CME", 9⟩, SourceState.file 100 (some 5))]
        (runJobs true (fun _ => false) [(⟨"CME", 9⟩, SourceState.file 100 (some 5))]
          initState).2
      = ([idempotentSkipResult],
          (runJobs true (fun _ => false) [(⟨"CME", 9⟩, SourceState.file 100 (some 5))]
            initState).2) :=
  (idempotent_resume ⟨"CME", 9⟩ 100 5 initState rfl).1

/-! ### Cancelled invocations -/

theorem ledgerSkip_preserves_terminal {st : LedgerState} {k : Key} {r : ProgressRecord}
    (hl : lookupA k st.progress = some r) (hr : r.status ≠ Status.started)
    (k' : Key) (reason : String) :
    lookupA k (ledgerSkip st k' reason).progress = some r := by
  unfold ledgerSkip
  rcases hlk : lookupA k' st.progress with _ | r'
  · have hne : k' ≠ k := by
      intro e
      rw [e, hl] at hlk
      cases hlk
    rw [refreshStats_progress]
    show lookupA k (upsertA k' _ st.progress) = some r
    rw [lookupA_upsertA_ne _ _ hne]
    exact hl
  · by_cases hst : r'.status = Status.started
    · have hne : k' ≠ k := by
        intro e
        rw [e, hl] at hlk
        cases hlk
        exact hr hst
      simp only [hst, if_true, refreshStats_progress]
      rw [lookupA_upsertA_ne _ _ hne]
      exact hl
    · simp only [if_neg hst]
      exact hl

/-- An invocation whose token is already fired at every boundary: every
worker yields the shutdown skip, the bronze store is untouched, and every
terminal Progress Record survives unchanged. -/
theorem runJobs_cancelled (idem : Bool) (jobs : List (Key × SourceState))
    (tok : Nat → Bool) (st : LedgerState) (htok : ∀ i, tok i = true) :
    (runJobs idem tok jobs st).1 = jobs.map (fun _ => shutdownResult) ∧
    ((runJobs idem tok jobs st).2).bronze = st.bronze ∧
    (∀ (k : Key) (r : ProgressRecord), lookupA k st.progress = some r →
        r.status ≠ Status.started →
        lookupA k ((runJobs idem tok jobs st).2).progress = some r) := by
  induction jobs generalizing tok st with
  | nil => exact ⟨rfl, rfl, fun k r hl _ => hl⟩
  | cons j rest ih =>
    obtain ⟨k', src⟩ := j
    have hw : runWorker idem (tok 0) src st k'
        = (shutdownResult, ledgerSkip st k' "shutdown") := by
      rw [htok 0]
      rfl
    have hjobs : runJobs idem tok ((k', src) :: rest) st
        = ((runWorker idem (tok 0) src st k').1
              :: (runJobs idem (fun i => tok (i + 1)) rest
                    (runWorker idem (tok 0) src st k').2).1,
            (runJobs idem (fun i => tok (i + 1)) rest
              (runWorker idem (tok 0) src st k').2).2) := rfl
    have ihr := ih (fun i => tok (i + 1)) (ledgerSkip st k' "shutdown")
      (fun i => htok (i + 1))
    refine ⟨?_, ?_, ?_⟩
    · rw [hjobs, hw]
      simp only [List.map_cons]
      exact congrArg (shutdownResult :: ·) ihr.1
    · rw [hjobs, hw]
      rw [ihr.2.1, ledgerSkip_bronze]
    · intro k r hl hr
      rw [hjobs, hw]
      exact ihr.2.2 k r (ledgerSkip_preserves_terminal hl hr k' "shutdown") hr

/-! ### Claim C4 -/

/-- C4: the worker observes the cancellation token only at transaction
boundaries.  If the token is clear at the first worker's boundary check
and fires during its load (so it reads `true` at every later boundary),
the open transaction is never aborted: the worker finishes exactly as an
uncancelled worker, either committing in full with the ledger recording
`completed`, or rolling back in full (bronze unchanged) with the ledger
recording `failed`; and every later exchange of the invocation returns
the `skipped(reason=shutdown)` result. -/
theorem shutdown_at_transaction_boundaries :
    ∀ (idem : Bool) (k : Key) (size : Nat) (load : Option Nat)
      (rest : List (Key × SourceState)) (st : LedgerState) (tok : Nat → Bool),
      tok 0 = false → (∀ i, 1 ≤ i → tok i = true) →
      (ledgerClaim idem st k (pathOf k) (some size)).1 = ClaimResult.Proceed →
      (runJobs idem tok ((k, SourceState.file size load) :: rest) st).1
        = (runWorker idem false (SourceState.file size load) st k).1
            :: rest.map (fun _ => shutdownResult) ∧
      (∀ n, load = some n →
        (runWorker idem false (SourceState.file size load) st k).1.status
            = Status.completed ∧
        lookupA k
            ((runJobs idem tok ((k, SourceState.file size load) :: rest) st).2).progress
          = some ⟨pathOf k, some size, Status.completed,
              some (bronzeCount st (sliceOf k) + n), none⟩ ∧
        ((runJobs idem tok ((k, SourceState.file size load) :: rest) st).2).bronze
          = ((runWorker idem false (SourceState.file size load) st k).2).bronze) ∧
      (load = none →
        (runWorker idem false (SourceState.file size load) st k).1.status
            = Status.failed ∧
        lookupA k
            ((runJobs idem tok ((k, SourceState.file size load) :: rest) st).2).progress
          = some ⟨pathOf k, some size, Status.failed, none, some "bulk load error"⟩ ∧
        ((runJobs idem tok ((k, SourceState.file size load) :: rest) st).2).bronze
          = st.bronze) := by
  intro idem k size load rest st tok h0 h1 hcl
  have htok' : ∀ i, (fun i => tok (i + 1)) i = true := fun i => h1 (i + 1) (by omega)
  have hjobs : runJobs idem tok ((k, SourceState.file size load) :: rest) st
      = ((runWorker idem (tok 0) (SourceState.file size load) st k).1
            :: (runJobs idem (fun i => tok (i + 1)) rest
                  (runWorker idem (tok 0) (SourceState.file size load) st k).2).1,
          (runJobs idem (fun i => tok (i + 1)) rest
            (runWorker idem (tok 0) (SourceState.file size load) st k).2).2) := rfl
  rw [hjobs, h0]
  have hrest := runJobs_cancelled idem rest (fun i => tok (i + 1))
    (runWorker idem false (SourceState.file size load) st k).2 htok'
  refine ⟨?_, ?_, ?_⟩
  · exact congrArg _ hrest.1
  · intro n hn
    subst hn
    have hw := runWorker_proceed_some (n := n) hcl
    refine ⟨by rw [hw.1], ?_, ?_⟩
    · exact hrest.2.2 k _ hw.2.1 (by intro e; cases e)
    · exact hrest.2.1
  · intro hn
    subst hn
    have hw := runWorker_proceed_none hcl
    refine ⟨by rw [hw.1], ?_, ?_⟩
    · exact hrest.2.2 k _ hw.2.1 (by intro e; cases e)
    · rw [hrest.2.1, hw.2.2]

/-- Closed witness for C4: the token fires during the first worker's load
of 4 records; the trailing exchange is skipped with reason shutdown. -/
theorem shutdown_at_transaction_boundaries_witness :
    (runJobs true (fun i => decide (1 ≤ i))
        [(⟨"NYQ", 3⟩, SourceState.file 50 (some 4)),
         (⟨"LSE", 3⟩, SourceState.missing)] initState).1
      = (runWorker true false (SourceState.file 50 (some 4)) initState ⟨"NYQ", 3⟩).1
          :: [shutdownResult] :=
  (shutdown_at_transaction_boundaries true ⟨"NYQ", 3⟩ 50 (some 4)
    [(⟨"LSE", 3⟩, SourceState.missing)] initState (fun i => decide (1 ≤ i))
    (by decide) (fun i hi => decide_eq_true hi) (by decide)).1

/-! ### Claim C5 -/

theorem mirror_core (avail : Bool) (w : RemoteWrite) (ds : DualState) :
    (mirror avail w ds).core = ds.core := by
  unfold mirror
  by_cases he : ds.remoteEnabled <;> cases avail <;> simp [he]

theorem mirrorKey_core (avail : Bool) (k : Key) (ds : DualState) :
    (mirrorKey avail k ds).core = ds.core := by
  unfold mirrorKey
  rcases lookupA k ds.core.progress with _ | r <;>
    rcases lookupA (k.dataDate, k.exchange) ds.core.daily with _ | dr <;>
    rcases lookupA (sundayOnOrBefore k.dataDate, k.exchange) ds.core.weekly with _ | wr <;>
    simp [mirror_core]

theorem runWorkerDual_core (avail idem cancelled : Bool) (src : SourceState)
    (ds : DualState) (k : Key) :
    (runWorkerDual avail idem cancelled src ds k).1
        = (runWorker idem cancelled src ds.core k).1 ∧
    (runWorkerDual avail idem cancelled src ds k).2.core
        = (runWorker idem cancelled src ds.core k).2 := by
  unfold runWorkerDual
  exact ⟨rfl, by rw [mirrorKey_core]⟩

/-- C5: Remote Ledger availability is invisible to ingestion.  However the
Remote store behaves (including a failed connect at startup and arbitrary
mid-run outages), a Job Runner invocation returns exactly the worker
results and authoritative local store of the pure local run: bronze
contents and Analytical Store ledger state are identical whether the
Remote store is reachable or not, and no mirror failure fails the local
transaction.  A failed startup connect only clears `remote_enabled` and
leaves the local store empty, as a successful one does. -/
theorem remote_degradation_invisible :
    ∀ (avail : Nat → Bool) (idem : Bool) (tok : Nat → Bool)
      (jobs : List (Key × SourceState)) (ds : DualState),
      (runJobsDual avail idem tok jobs ds).1 = (runJobs idem tok jobs ds.core).1 ∧
      (runJobsDual avail idem tok jobs ds).2.core = (runJobs idem tok jobs ds.core).2 ∧
      ∀ up : Bool, (initDual up).remoteEnabled = up ∧ (initDual up).core = initState := by
  intro avail idem tok jobs ds
  refine ⟨?_, ?_, fun up => ⟨rfl, rfl⟩⟩ <;>
  · induction jobs generalizing avail tok ds with
    | nil => rfl
    | cons j rest ih =>
      obtain ⟨k, src⟩ := j
      have hd := runWorkerDual_core (avail 0) idem (tok 0) src ds k
      have hjobsD : runJobsDual avail idem tok ((k, src) :: rest) ds
          = ((runWorkerDual (avail 0) idem (tok 0) src ds k).1
                :: (runJobsDual (fun i => avail (i + 1)) idem (fun i => tok (i + 1)) rest
                      (runWorkerDual (avail 0) idem (tok 0) src ds k).2).1,
              (runJobsDual (fun i => avail (i + 1)) idem (fun i => tok (i + 1)) rest
                (runWorkerDual (avail 0) idem (tok 0) src ds k).2).2) := rfl
      have hjobsC : runJobs idem tok ((k, src) :: rest) ds.core
          = ((runWorker idem (tok 0) src ds.core k).1
                :: (runJobs idem (fun i => tok (i + 1)) rest
                      (runWorker idem (tok 0) src ds.core k).2).1,
              (runJobs idem (fun i => tok (i + 1)) rest
                (runWorker idem (tok 0) src ds.core k).2).2) := rfl
      have ihr := ih (fun i => avail (i + 1)) (fun i => tok (i + 1))
        ((runWorkerDual (avail 0) idem (tok 0) src ds k).2)
      rw [hjobsD, hjobsC]
      rw [hd.2] at ihr
      simp only [ihr, hd.1, hd.2]

/-! ### Daily statistics derivability -/

/-- The statistics invariant: every stored Daily Statistics row equals the
pure aggregation over the current Progress Records of its pair. -/
def Inv6 (st : LedgerState) : Prop :=
  ∀ (d : Nat) (ex : String) (row : DailyRow), lookupA (d, ex) st.daily = some row →
    row = aggregateDaily (recordsFor st.progress d ex)

theorem recordsFor_upsert_ne (p : List (Key × ProgressRecord)) (k : Key)
    (v : ProgressRecord) {d : Nat} {ex : String}
    (h : ¬(k.dataDate = d ∧ k.exchange = ex)) :
    recordsFor (upsertA k v p) d ex = recordsFor p d ex := by
  have hb : (k.dataDate == d && k.exchange == ex) = false := by
    by_cases h1 : k.dataDate = d
    · by_cases h2 : k.exchange = ex
      · exact absurd ⟨h1, h2⟩ h
      · simp [h2]
    · simp [h1]
  induction p with
  | nil => simp [recordsFor, upsertA, hb]
  | cons hd t ih =>
    obtain ⟨a, b⟩ := hd
    by_cases hak : a = k
    · subst hak
      simp only [upsertA, if_pos rfl]
      simp [recordsFor, hb]
    · simp only [upsertA, if_neg hak]
      simp only [recordsFor, List.filter_cons, List.map_cons] at ih ⊢
      by_cases hm : (a.dataDate == d && a.exchange == ex) = true
      · simp [hm, ih]
      · simp only [Bool.not_eq_true] at hm
        simp [hm, ih]

theorem inv6_refresh {st : LedgerState} (h6 : Inv6 st) (k : Key)
    (p' : List (Key × ProgressRecord)) (b' : List (Slice × Nat))
    (hp : ∀ (d : Nat) (ex : String), ¬(k.dataDate = d ∧ k.exchange = ex) →
        recordsFor p' d ex = recordsFor st.progress d ex) :
    Inv6 (refreshStats { st with progress := p', bronze := b' }
      k.dataDate k.exchange) := by
  intro d ex row hrow
  have hdaily : (refreshStats { st with progress := p', bronze := b' }
        k.dataDate k.exchange).daily
      = upsertA (k.dataDate, k.exchange)
          (aggregateDaily (recordsFor p' k.dataDate k.exchange)) st.daily := rfl
  rw [hdaily] at hrow
  show row = aggregateDaily (recordsFor p' d ex)
  by_cases hke : ((k.dataDate, k.exchange) : Nat × String) = (d, ex)
  · have h1 : k.dataDate = d := congrArg Prod.fst hke
    have h2 : k.exchange = ex := congrArg Prod.snd hke
    subst h1
    subst h2
    rw [lookupA_upsertA_self] at hrow
    cases hrow
    rfl
  · rw [lookupA_upsertA_ne _ _ hke] at hrow
    have hne : ¬(k.dataDate = d ∧ k.exchange = ex) := by
      intro ⟨h1, h2⟩
      exact hke (by rw [h1, h2])
    rw [hp d ex hne]
    exact h6 d ex row hrow

theorem inv6_ledgerSkip {st : LedgerState} (h6 : Inv6 st) (k : Key) (reason : String) :
    Inv6 (ledgerSkip st k reason) := by
  unfold ledgerSkip
  rcases hl : lookupA k st.progress with _ | r
  · exact inv6_refresh h6 k _ _ (fun d ex h => recordsFor_upsert_ne _ k _ h)
  · by_cases hst : r.status = Status.started
    · simp only [hst, if_pos rfl]
      exact inv6_refresh h6 k _ _ (fun d ex h => recordsFor_upsert_ne _ k _ h)
    · simp only [if_neg hst]
      exact h6

theorem inv6_failPath {st : LedgerState} (h6 : Inv6 st) (k : Key) (size : Nat) :
    Inv6 (ledgerFail
      { st with
        progress := upsertA k ⟨pathOf k, some size, Status.started, none, none⟩ st.progress }
      k "bulk load error") := by
  unfold ledgerFail
  rw [show lookupA k (upsertA k (⟨pathOf k, some size, Status.started, none, none⟩ :
      ProgressRecord) st.progress)
    = some ⟨pathOf k, some size, Status.started, none, none⟩
    from lookupA_upsertA_self k _ st.progress]
  simp only [if_pos rfl]
  exact inv6_refresh h6 k _ _
    (fun d ex h => by rw [recordsFor_upsert_ne _ k _ h, recordsFor_upsert_ne _ k _ h])

theorem inv6_commitPath {st : LedgerState} (h6 : Inv6 st) (k : Key) (size n : Nat) :
    Inv6 (ledgerComplete
      { st with
        progress := upsertA k ⟨pathOf k, some size, Status.started, none, none⟩ st.progress
        bronze := upsertA (sliceOf k)
          ((lookupA (sliceOf k) st.bronze).getD 0 + n) st.bronze }
      k
      ((lookupA (sliceOf k)
          (upsertA (sliceOf k) ((lookupA (sliceOf k) st.bronze).getD 0 + n)
            st.bronze)).getD 0)) := by
  unfold ledgerComplete
  rw [show lookupA k (upsertA k (⟨pathOf k, some size, Status.started, none, none⟩ :
      ProgressRecord) st.progress)
    = some ⟨pathOf k, some size, Status.started, none, none⟩
    from lookupA_upsertA_self k _ st.progress]
  simp only [if_pos rfl]
  exact inv6_refresh h6 k _ _
    (fun d ex h => by rw [recordsFor_upsert_ne _ k _ h, recordsFor_upsert_ne _ k _ h])

theorem inv6_runWorker (idem cancelled : Bool) (src : SourceState) (st : LedgerState)
    (k : Key) (h6 : Inv6 st) : Inv6 (runWorker idem cancelled src st k).2 := by
  unfold runWorker
  cases cancelled with
  | true => exact inv6_ledgerSkip h6 k "shutdown"
  | false =>
    cases src with
    | missing => exact inv6_ledgerSkip h6 k "no source file"
    | file size load =>
      rcases hl : lookupA k st.progress with _ | r
      · have hClaim : ledgerClaim idem st k (pathOf k) (some size) =
            (ClaimResult.Proceed,
              { st with
                progress :=
                  upsertA k ⟨pathOf k, some size, Status.started, none, none⟩ st.progress }) := by
          simp [ledgerClaim, hl]
        simp only [Bool.false_eq_true, if_false, hClaim]
        cases load with
        | none => exact inv6_failPath h6 k size
        | some n => exact inv6_commitPath h6 k size n
      · by_cases hcomp : r.status = Status.completed
        · have hClaim : ledgerClaim idem st k (pathOf k) (some size) =
              (ClaimResult.AlreadyDone, st) := by
            simp [ledgerClaim, hl, hcomp]
          simp only [Bool.false_eq_true, if_false, hClaim]
          exact h6
        · cases idem with
          | false =>
            have hClaim : ledgerClaim false st k (pathOf k) (some size) =
                (ClaimResult.Conflict, st) := by
              simp [ledgerClaim, hl, hcomp]
            simp only [Bool.false_eq_true, if_false, hClaim]
            exact h6
          | true =>
            have hClaim : ledgerClaim true st k (pathOf k) (some size) =
                (ClaimResult.Proceed,
                  { st with
                    progress :=
                      upsertA k ⟨pathOf k, some size, Status.started, none, none⟩
                        st.progress }) := by
              simp [ledgerClaim, hl, hcomp]
            simp only [Bool.false_eq_true, if_false, hClaim]
            cases load with
            | none => exact inv6_failPath h6 k size
            | some n => exact inv6_commitPath h6 k size n

theorem reachable_inv6 {st : LedgerState} (h : Reachable st) : Inv6 st := by
  induction h with
  | init => intro d ex row hrow; simp [initState, lookupA] at hrow
  | step idem cancelled src k _ ih => exact inv6_runWorker idem cancelled src _ k ih

/-! ### Claim C6 -/

/-- C6: every stored Daily Statistics row `(stats_date, exchange)` equals
the pure aggregation over the Progress Records with `data_date =
stats_date` for that exchange, and its `avg_records_per_file` equals
`total_records / max(successful_files, 1)`. -/
theorem aggregate_derivability :
    ∀ (st : LedgerState) (d : Nat) (ex : String) (row : DailyRow), Reachable st →
      lookupA (d, ex) st.daily = some row →
      row = aggregateDaily (recordsFor st.progress d ex) ∧
      row.avgRecordsPerFile
        = (row.totalRecords : ℚ) / ((max row.successfulFiles 1 : Nat) : ℚ) := by
  intro st d ex row hreach hrow
  have h1 := reachable_inv6 hreach d ex row hrow
  refine ⟨h1, ?_⟩
  rw [h1]
  show mkRat _ _ = _
  rw [Rat.mkRat_eq_div, Int.cast_natCast]
  rfl

/-- Closed witness for C6 after one completed load of 5 records. -/
theorem aggregate_derivability_witness :
    (⟨1, 1, 0, 5, mkRat 5 1⟩ : DailyRow)
        = aggregateDaily (recordsFor stCompleted.progress 7 "LSE") ∧
    (⟨1, 1, 0, 5, mkRat 5 1⟩ : DailyRow).avgRecordsPerFile
        = (((⟨1, 1, 0, 5, mkRat 5 1⟩ : DailyRow).totalRecords : ℚ)
            / ((max (⟨1, 1, 0, 5, mkRat 5 1⟩ : DailyRow).successfulFiles 1 : Nat) : ℚ)) :=
  aggregate_derivability stCompleted 7 "LSE" ⟨1, 1, 0, 5, mkRat 5 1⟩
    stCompleted_reachable (by decide)

/-! ### Weekly window characterization -/

theorem contributing_sum (daily : List ((Nat × String) × DailyRow)) (w : Nat)
    (ex : String) (g : DailyRow → Nat) :
    ((contributingDays daily w ex).map g).sum
      = ((weekWindow w).map (fun day =>
          match lookupA (day, ex) daily with
          | none => 0
          | some r => if r.successfulFiles = 0 then 0 else g r)).sum := by
  unfold contributingDays
  generalize weekWindow w = days
  induction days with
  | nil => rfl
  | cons a t ih =>
    rcases hfa : lookupA (a, ex) daily with _ | r
    · simp only [List.filterMap_cons, List.map_cons, List.sum_cons, hfa]
      rw [ih]
      omega
    · by_cases hz : r.successfulFiles = 0
      · simp only [List.filterMap_cons, List.map_cons, List.sum_cons, hfa, hz]
        simp only [if_pos rfl, beq_self_eq_true, if_true]
        rw [ih]
        simp
      · have hzb : (r.successfulFiles == 0) = false := by
          simp [hz]
        simp only [List.filterMap_cons, List.map_cons, List.sum_cons, hfa, hzb,
          if_neg hz, Bool.false_eq_true, if_false]
        rw [ih]

theorem length_filterMap_countP (f : Nat → Option DailyRow) (p : Nat → Bool)
    (hfp : ∀ a, (f a).isSome = p a) (days : List Nat) :
    (days.filterMap f).length = days.countP p := by
  induction days with
  | nil => rfl
  | cons a t ih =>
    rw [List.filterMap_cons, List.countP_cons, ← hfp a]
    cases hfa : f a <;> simp [ih]

theorem contributing_count (daily : List ((Nat × String) × DailyRow)) (w : Nat)
    (ex : String) :
    (contributingDays daily w ex).length
      = (weekWindow w).countP (fun day =>
          match lookupA (day, ex) daily with
          | none => false
          | some r => decide (r.successfulFiles ≠ 0)) := by
  unfold contributingDays
  refine length_filterMap_countP _ _ (fun a => ?_) _
  rcases lookupA (a, ex) daily with _ | r
  · rfl
  · by_cases hz : r.successfulFiles = 0 <;> simp [hz]

theorem aggregateWeekly_avgDailyFiles (daily : List ((Nat × String) × DailyRow))
    (w : Nat) (ex : String) :
    (aggregateWeekly daily w ex).avgDailyFiles
      = ((aggregateWeekly daily w ex).totalFiles : ℚ)
          / (((weekWindow w).countP (fun day =>
              match lookupA (day, ex) daily with
              | none => false
              | some r => decide (r.successfulFiles ≠ 0)) : Nat) : ℚ) := by
  show mkRat _ _ = _
  rw [Rat.mkRat_eq_div, Int.cast_natCast, contributing_count daily w ex]
  rfl

theorem aggregateWeekly_avgDailyRecords (daily : List ((Nat × String) × DailyRow))
    (w : Nat) (ex : String) :
    (aggregateWeekly daily w ex).avgDailyRecords
      = ((aggregateWeekly daily w ex).totalRecords : ℚ)
          / (((weekWindow w).countP (fun day =>
              match lookupA (day, ex) daily with
              | none => false
              | some r => decide (r.successfulFiles ≠ 0)) : Nat) : ℚ) := by
  show mkRat _ _ = _
  rw [Rat.mkRat_eq_div, Int.cast_natCast, contributing_count daily w ex]
  rfl

/-! ### Claim C7 -/

/-- C7: the Weekly Rolling Statistics row refreshed for a changed
`stats_date` is keyed by the most recent Sunday (inclusive) at or before
that date, and its fields are 7-day sums and per-day means over the
window `[week_ending-6, week_ending]`, where a day with zero completed
files contributes 0 to the sums and is excluded from the means. -/
theorem weekly_rolling_stats :
    ∀ (st : LedgerState) (d : Nat) (ex : String),
      (sundayOnOrBefore d % 7 = 0 ∧ sundayOnOrBefore d ≤ d ∧
        d < sundayOnOrBefore d + 7 ∧
        ∀ w', w' % 7 = 0 → w' ≤ d → w' ≤ sundayOnOrBefore d) ∧
      ∃ row : WeeklyRow,
        lookupA (sundayOnOrBefore d, ex) (refreshWeekly st d ex).weekly = some row ∧
        row.totalFiles
          = ((weekWindow (sundayOnOrBefore d)).map (fun day =>
              match lookupA (day, ex) st.daily with
              | none => 0
              | some r => if r.successfulFiles = 0 then 0 else r.totalFiles)).sum ∧
        row.totalRecords
          = ((weekWindow (sundayOnOrBefore d)).map (fun day =>
              match lookupA (day, ex) st.daily with
              | none => 0
              | some r => if r.successfulFiles = 0 then 0 else r.totalRecords)).sum ∧
        row.avgDailyFiles
          = ((row.totalFiles : Nat) : ℚ)
              / (((weekWindow (sundayOnOrBefore d)).countP (fun day =>
                  match lookupA (day, ex) st.daily with
                  | none => false
                  | some r => decide (r.successfulFiles ≠ 0)) : Nat) : ℚ) ∧
        row.avgDailyRecords
          = ((row.totalRecords : Nat) : ℚ)
              / (((weekWindow (sundayOnOrBefore d)).countP (fun day =>
                  match lookupA (day, ex) st.daily with
                  | none => false
                  | some r => decide (r.successfulFiles ≠ 0)) : Nat) : ℚ) := by
  intro st d ex
  constructor
  · simp only [sundayOnOrBefore]
    refine ⟨?_, ?_, ?_, fun w' h1 h2 => ?_⟩ <;> omega
  · refine ⟨aggregateWeekly st.daily (sundayOnOrBefore d) ex, ?_, ?_, ?_, ?_, ?_⟩
    · show lookupA (sundayOnOrBefore d, ex)
        (upsertA (sundayOnOrBefore d, ex)
          (aggregateWeekly st.daily (sundayOnOrBefore d) ex) st.weekly) = _
      rw [lookupA_upsertA_self]
    · exact contributing_sum st.daily (sundayOnOrBefore d) ex (·.totalFiles)
    · exact contributing_sum st.daily (sundayOnOrBefore d) ex (·.totalRecords)
    · exact aggregateWeekly_avgDailyFiles st.daily (sundayOnOrBefore d) ex
    · exact aggregateWeekly_avgDailyRecords st.daily (sundayOnOrBefore d) ex

/-! ### Claim C8 -/

/-- C8: the `avg_records_per_file` (daily) and `avg_daily_records`
(weekly) statistics columns are `DECIMAL(20,2)` on both the Analytical
Store and the Remote (Supabase) side: at least 20 digits of precision with
2 fractional digits, so any value with two decimal places up to
trillion-scale (`10^12`, i.e. numerator up to `10^14` hundredths) is
representable exactly. -/
theorem fixed_point_precision :
    ∀ t ∈ [supabaseDailyAvgType, supabaseWeeklyAvgType, duckdbDailyAvgType,
        duckdbWeeklyAvgType],
      20 ≤ t.precision ∧ t.scale = 2 ∧
      ∀ n : ℤ, n.natAbs ≤ 10 ^ 14 → t.representable ((n : ℚ) / 100) := by
  intro t ht
  simp only [List.mem_cons, List.not_mem_nil, or_false] at ht
  rcases ht with h | h | h | h <;> subst h <;>
    exact ⟨by norm_num [supabaseDailyAvgType, supabaseWeeklyAvgType, duckdbDailyAvgType,
        duckdbWeeklyAvgType], rfl, fun n hn =>
      ⟨n, by norm_num [supabaseDailyAvgType, supabaseWeeklyAvgType, duckdbDailyAvgType,
          duckdbWeeklyAvgType], by
        show n.natAbs < 10 ^ (⟨20, 2⟩ : DecimalType).precision
        calc n.natAbs ≤ 10 ^ 14 := hn
          _ < 10 ^ 20 := by norm_num⟩⟩

/-- Closed witness for C8 at a trillion-scale value `10^12 = 10^14 / 100`. -/
theorem fixed_point_precision_witness :
    20 ≤ supabaseDailyAvgType.precision ∧ supabaseDailyAvgType.scale = 2 ∧
    supabaseDailyAvgType.representable (((10 ^ 14 : ℤ) : ℚ) / 100) :=
  ⟨(fixed_point_precision supabaseDailyAvgType (by simp)).1,
   (fixed_point_precision supabaseDailyAvgType (by simp)).2.1,
   (fixed_point_precision supabaseDailyAvgType (by simp)).2.2 (10 ^ 14) (by norm_num)⟩

/-! ### Claim C9 -/

/-- C9: for every exchange code in LSE, CME, NYQ and every date, the SQL
helper `get_s3_path` resolves (with its default `processing_stage =
'ingestion'`) exactly the spec's daily-file template
`s3://vendor-data-s3/LSEG/TRTH/<EXCHANGE>/ingestion/<YYYY-MM-DD>/data/`
`merged/<EXCHANGE>-<YYYY-MM-DD>-NORMALIZEDMP-Data-1-of-1.csv.gz`. -/
theorem s3_path_convention :
    ∀ ex ∈ ["LSE", "CME", "NYQ"], ∀ d : SQLDate,
      get_s3_path ex d = specDailyPath ex d := by
  intro ex hex d
  simp only [List.mem_cons, List.not_mem_nil, or_false] at hex
  rcases hex with h | h | h <;> subst h
  · have hu : sqlUpper "LSE" = "LSE" := rfl
    simp [get_s3_path, specDailyPath, hu, String.append_assoc]
  · have hu : sqlUpper "CME" = "CME" := rfl
    simp [get_s3_path, specDailyPath, hu, String.append_assoc]
  · have hu : sqlUpper "NYQ" = "NYQ" := rfl
    simp [get_s3_path, specDailyPath, hu, String.append_assoc]

/-- Closed witness for C9 at LSE, 2025-01-15. -/
theorem s3_path_convention_witness :
    get_s3_path "LSE" ⟨2025, 1, 15⟩ = specDailyPath "LSE" ⟨2025, 1, 15⟩ :=
  s3_path_convention "LSE" (by simp) ⟨2025, 1, 15⟩

/-! ### Claim C10 -/

/-- C10: every bronze market-data table created by the two schema scripts
carries the metadata column `processing_stage` in addition to the four
metadata columns `data_date`, `exchange`, `source_file`,
`ingestion_timestamp` — five metadata columns on every ingested row — and
in the partitioned script `processing_stage` defaults to `'ingestion'`. -/
theorem bronze_metadata_columns :
    (∀ t ∈ bronzeFlatTables ++ bronzePartitionedTables,
      ∀ c ∈ fourMetadataColumns ++ ["processing_stage"],
        c ∈ t.2.map (·.colName)) ∧
    (∀ t ∈ bronzePartitionedTables,
      ∃ cd ∈ t.2, cd.colName = "processing_stage" ∧
        cd.defaultVal = some "ingestion") := by
  constructor
  · decide
  · decide

/-- Closed witness for C10 at the LSE tables of both scripts. -/
theorem bronze_metadata_columns_witness :
    "processing_stage" ∈ lseRawFlat.map (·.colName) ∧
    ∃ cd ∈ lseRawPartitioned, cd.colName = "processing_stage" ∧
      cd.defaultVal = some "ingestion" :=
  ⟨bronze_metadata_columns.1 ("bronze.lse_market_data_raw", lseRawFlat)
      (by simp [bronzeFlatTables]) "processing_stage" (by simp [fourMetadataColumns]),
   bronze_metadata_columns.2 ("bronze.lse_market_data_raw", lseRawPartitioned)
      (by simp [bronzePartitionedTables])⟩

/-- Closed witness for C5: one job against an unreachable Remote store. -/
theorem remote_degradation_invisible_witness :
    (runJobsDual (fun _ => false) true (fun _ => false)
        [(⟨"LSE", 2⟩, SourceState.file 10 (some 3))] (initDual false)).1
      = (runJobs true (fun _ => false)
          [(⟨"LSE", 2⟩, SourceState.file 10 (some 3))] (initDual false).core).1 :=
  (remote_degradation_invisible (fun _ => false) true (fun _ => false)
    [(⟨"LSE", 2⟩, SourceState.file 10 (some 3))] (initDual false)).1

/-- Closed witness for C7: day 16 falls in the week ending on Sunday 14. -/
theorem weekly_rolling_stats_witness :
    sundayOnOrBefore 16 % 7 = 0 ∧ 7 ≤ sundayOnOrBefore 16 :=
  ⟨(weekly_rolling_stats initState 16 "LSE").1.1,
   (weekly_rolling_stats initState 16 "LSE").1.2.2.2 7 (by decide) (by decide)⟩
